import Mathlib

/-!
Verification of the axis-remapping core of variable_desired_locations.py.

Design-space and normalized axis coordinates are modelled as rationals.
Python operations that can raise are modelled with Except or with an
Option error component: float division by zero raises ZeroDivisionError
(modelled as the degenerateAxisRange error), a missing dictionary key
raises KeyError, and list indexing past the end raises IndexError
(which get_source_axes_values catches and replaces by the value 0.0).
-/

namespace VDL

/-- Error conditions of the transform: a zero denominator in
normalization, a binary instance name absent from the project
instances, no master matching the variation origin, and a
desired-location mapping missing an axis tag. -/
inductive Err where
  | degenerateAxisRange
  | instanceNameMismatch
  | missingOriginMaster
  | missingAxisTag
deriving DecidableEq

/-- An axis range triple. The Python code stores it as a dict with keys
"min", "def", "max" (get_axes_values, lines 40-49, and
get_source_axes_values, lines 52-86); "def" is a Lean keyword, so the
field is named dflt. -/
structure AxisRange where
  min : ℚ
  dflt : ℚ
  max : ℚ
deriving DecidableEq

/-- Embedding of defaultNormalizedValue (lines 89-95). A zero
denominator raises ZeroDivisionError in Python; here that is the
degenerateAxisRange error. -/
def defaultNormalizedValue (axis : AxisRange) (instanceValue : ℚ) : Except Err ℚ :=
  if instanceValue < axis.dflt then
    if axis.dflt - axis.min = 0 then .error .degenerateAxisRange
    else .ok (-(axis.dflt - instanceValue) / (axis.dflt - axis.min))
  else if instanceValue > axis.dflt then
    if axis.max - axis.dflt = 0 then .error .degenerateAxisRange
    else .ok ((instanceValue - axis.dflt) / (axis.max - axis.dflt))
  else .ok 0

/-- The value defaultNormalizedValue returns when no division by zero
occurs. -/
def normValue (axis : AxisRange) (v : ℚ) : ℚ :=
  if v < axis.dflt then -(axis.dflt - v) / (axis.dflt - axis.min)
  else if v > axis.dflt then (v - axis.dflt) / (axis.max - axis.dflt)
  else 0

lemma defaultNormalizedValue_eq_ok (axis : AxisRange) (v : ℚ)
    (h1 : axis.min < axis.dflt) (h2 : axis.dflt < axis.max) :
    defaultNormalizedValue axis v = Except.ok (normValue axis v) := by
  have hdm : axis.dflt - axis.min ≠ 0 := sub_ne_zero.mpr (ne_of_gt h1)
  have hmd : axis.max - axis.dflt ≠ 0 := sub_ne_zero.mpr (ne_of_gt h2)
  unfold defaultNormalizedValue normValue
  by_cases hv : v < axis.dflt
  · rw [if_pos hv, if_pos hv, if_neg hdm]
  · rw [if_neg hv, if_neg hv]
    by_cases hv2 : v > axis.dflt
    · rw [if_pos hv2, if_pos hv2, if_neg hmd]
    · rw [if_neg hv2, if_neg hv2]

/-- C3: for a well-formed axis range (min < default < max), the
normalizer maps the default to 0, the minimum to -1 and the maximum
to 1. -/
theorem c3_anchor_values (axis : AxisRange)
    (h1 : axis.min < axis.dflt) (h2 : axis.dflt < axis.max) :
    defaultNormalizedValue axis axis.dflt = Except.ok 0 ∧
    defaultNormalizedValue axis axis.min = Except.ok (-1) ∧
    defaultNormalizedValue axis axis.max = Except.ok 1 := by
  have hdm : axis.dflt - axis.min ≠ 0 := sub_ne_zero.mpr (ne_of_gt h1)
  have hmd : axis.max - axis.dflt ≠ 0 := sub_ne_zero.mpr (ne_of_gt h2)
  refine ⟨?_, ?_, ?_⟩
  · rw [defaultNormalizedValue_eq_ok axis _ h1 h2]
    simp [normValue]
  · rw [defaultNormalizedValue_eq_ok axis _ h1 h2]
    have hval : normValue axis axis.min = -1 := by
      unfold normValue
      rw [if_pos h1, neg_div, div_self hdm]
    rw [hval]
  · rw [defaultNormalizedValue_eq_ok axis _ h1 h2]
    have hval : normValue axis axis.max = 1 := by
      unfold normValue
      rw [if_neg (not_lt.mpr h2.le), if_pos h2, div_self hmd]
    rw [hval]

/-- Witness for c3_anchor_values at the range (0, 1, 2). -/
theorem c3_witness :
    defaultNormalizedValue ⟨0, 1, 2⟩ 1 = Except.ok 0 ∧
    defaultNormalizedValue ⟨0, 1, 2⟩ 0 = Except.ok (-1) ∧
    defaultNormalizedValue ⟨0, 1, 2⟩ 2 = Except.ok 1 :=
  c3_anchor_values ⟨0, 1, 2⟩ (by norm_num) (by norm_num)

/-- C7: for a well-formed axis range (min < default < max), the
normalizer is monotonically non-decreasing in its input. -/
theorem c7_monotone (axis : AxisRange) (v1 v2 : ℚ)
    (h1 : axis.min < axis.dflt) (h2 : axis.dflt < axis.max) (h12 : v1 ≤ v2) :
    ∃ y1 y2, defaultNormalizedValue axis v1 = Except.ok y1 ∧
      defaultNormalizedValue axis v2 = Except.ok y2 ∧ y1 ≤ y2 := by
  refine ⟨normValue axis v1, normValue axis v2,
    defaultNormalizedValue_eq_ok axis v1 h1 h2,
    defaultNormalizedValue_eq_ok axis v2 h1 h2, ?_⟩
  have hdm : (0:ℚ) < axis.dflt - axis.min := by linarith
  have hmd : (0:ℚ) < axis.max - axis.dflt := by linarith
  unfold normValue
  by_cases ha : v1 < axis.dflt
  · rw [if_pos ha]
    have hy1 : -(axis.dflt - v1) / (axis.dflt - axis.min) ≤ 0 := by
      rw [neg_div]
      exact neg_nonpos.mpr (div_nonneg (by linarith) hdm.le)
    by_cases hb : v2 < axis.dflt
    · rw [if_pos hb]
      rw [div_le_div_iff_of_pos_right hdm]
      linarith
    · rw [if_neg hb]
      by_cases hc : v2 > axis.dflt
      · rw [if_pos hc]
        exact le_trans hy1 (div_nonneg (by linarith) hmd.le)
      · rw [if_neg hc]
        exact hy1
  · rw [if_neg ha]
    by_cases hc : v1 > axis.dflt
    · have hb2 : v2 > axis.dflt := lt_of_lt_of_le hc h12
      rw [if_pos hc, if_neg (not_lt.mpr hb2.le), if_pos hb2]
      rw [div_le_div_iff_of_pos_right hmd]
      linarith
    · rw [if_neg hc]
      by_cases hb : v2 < axis.dflt
      · exact absurd (lt_of_le_of_lt h12 hb) ha
      · rw [if_neg hb]
        by_cases hc2 : v2 > axis.dflt
        · rw [if_pos hc2]
          exact div_nonneg (by linarith) hmd.le
        · rw [if_neg hc2]

/-- Witness for c7_monotone at the range (0, 1, 2) with inputs 0 and 2. -/
theorem c7_witness :
    ∃ y1 y2, defaultNormalizedValue ⟨0, 1, 2⟩ 0 = Except.ok y1 ∧
      defaultNormalizedValue ⟨0, 1, 2⟩ 2 = Except.ok y2 ∧ y1 ≤ y2 :=
  c7_monotone ⟨0, 1, 2⟩ 0 2 (by norm_num) (by norm_num) (by norm_num)

/-- Association-list lookup, modelling the Python dict access d[k]
(returning none where Python raises KeyError). -/
def lookupA {α β : Type} [DecidableEq α] (k : α) : List (α × β) → Option β
  | [] => none
  | p :: rest => if p.1 = k then some p.2 else lookupA k rest

/-- Python dict assignment d[k] = v: the entry is updated in place when
the key exists, else appended at the end (insertion order preserved). -/
def dictInsert {α β : Type} [DecidableEq α] (d : List (α × β)) (k : α) (v : β) :
    List (α × β) :=
  if k ∈ d.map Prod.fst then d.map (fun p => if p.1 = k then (k, v) else p)
  else d ++ [(k, v)]

lemma lookupA_eq_none {α β : Type} [DecidableEq α] (k : α) (d : List (α × β))
    (h : k ∉ d.map Prod.fst) : lookupA k d = none := by
  induction d with
  | nil => rfl
  | cons p tl ih =>
    simp only [List.map_cons, List.mem_cons, not_or] at h
    rw [lookupA, if_neg (fun he => h.1 he.symm)]
    exact ih h.2

lemma lookupA_mapSet {α β : Type} [DecidableEq α] (d : List (α × β)) (k : α) (v : β)
    (hk : k ∈ d.map Prod.fst) :
    lookupA k (d.map (fun p => if p.1 = k then (k, v) else p)) = some v := by
  induction d with
  | nil => simp at hk
  | cons p tl ih =>
    by_cases hp : p.1 = k
    · simp [List.map_cons, if_pos hp, lookupA]
    · have hk' : k ∈ tl.map Prod.fst := by
        rw [List.map_cons] at hk
        rcases List.mem_cons.mp hk with h | h
        · exact absurd h.symm hp
        · exact h
      simp only [List.map_cons, if_neg hp, lookupA, if_neg hp]
      exact ih hk'

lemma lookupA_mapSet_ne {α β : Type} [DecidableEq α] (d : List (α × β)) (k k' : α)
    (v : β) (h : k' ≠ k) :
    lookupA k (d.map (fun p => if p.1 = k' then (k', v) else p)) = lookupA k d := by
  induction d with
  | nil => rfl
  | cons p tl ih =>
    by_cases hp : p.1 = k'
    · have hpk : ¬ p.1 = k := fun he => h (hp ▸ he)
      simp only [List.map_cons, if_pos hp, lookupA, if_neg h, if_neg hpk]
      exact ih
    · simp only [List.map_cons, if_neg hp, lookupA]
      by_cases hpk : p.1 = k
      · rw [if_pos hpk, if_pos hpk]
      · rw [if_neg hpk, if_neg hpk]
        exact ih

lemma lookupA_append_single {α β : Type} [DecidableEq α] (d : List (α × β)) (k : α)
    (v : β) (h : k ∉ d.map Prod.fst) :
    lookupA k (d ++ [(k, v)]) = some v := by
  induction d with
  | nil => simp [lookupA]
  | cons p tl ih =>
    simp only [List.map_cons, List.mem_cons, not_or] at h
    rw [List.cons_append, lookupA, if_neg (fun he => h.1 he.symm)]
    exact ih h.2

lemma lookupA_append_single_ne {α β : Type} [DecidableEq α] (d : List (α × β))
    (k k' : α) (v : β) (h : k' ≠ k) :
    lookupA k (d ++ [(k', v)]) = lookupA k d := by
  induction d with
  | nil => simp [lookupA, if_neg h]
  | cons p tl ih =>
    rw [List.cons_append, lookupA, lookupA]
    by_cases hpk : p.1 = k
    · rw [if_pos hpk, if_pos hpk]
    · rw [if_neg hpk, if_neg hpk]
      exact ih

lemma lookupA_dictInsert_self {α β : Type} [DecidableEq α] (d : List (α × β)) (k : α)
    (v : β) : lookupA k (dictInsert d k v) = some v := by
  unfold dictInsert
  by_cases hk : k ∈ d.map Prod.fst
  · rw [if_pos hk]
    exact lookupA_mapSet d k v hk
  · rw [if_neg hk]
    exact lookupA_append_single d k v hk

lemma lookupA_dictInsert_ne {α β : Type} [DecidableEq α] (d : List (α × β))
    (k k' : α) (v : β) (h : k' ≠ k) :
    lookupA k (dictInsert d k' v) = lookupA k d := by
  unfold dictInsert
  by_cases hk : k' ∈ d.map Prod.fst
  · rw [if_pos hk]
    exact lookupA_mapSet_ne d k k' v h
  · rw [if_neg hk]
    exact lookupA_append_single_ne d k k' v h

lemma lookupA_dictInsert_isSome {α β : Type} [DecidableEq α] (d : List (α × β))
    (k k' : α) (v : β) (h : (lookupA k d).isSome) :
    (lookupA k (dictInsert d k' v)).isSome := by
  by_cases he : k' = k
  · subst he
    rw [lookupA_dictInsert_self]
    rfl
  · rw [lookupA_dictInsert_ne d k k' v he]
    exact h

lemma dictInsert_id {α : Type} [DecidableEq α] (d : List (α × α)) (k : α)
    (hd : ∀ p ∈ d, p.2 = p.1) : ∀ p ∈ dictInsert d k k, p.2 = p.1 := by
  unfold dictInsert
  by_cases hk : k ∈ d.map Prod.fst
  · rw [if_pos hk]
    intro p hp
    obtain ⟨q, hq, rfl⟩ := List.mem_map.mp hp
    by_cases hq1 : q.1 = k
    · rw [if_pos hq1]
    · rw [if_neg hq1]
      exact hd q hq
  · rw [if_neg hk]
    intro p hp
    rcases List.mem_append.mp hp with h | h
    · exact hd p h
    · rw [List.mem_singleton.mp h]

/-- Instance loop of create_avar for one axis (lines 110-123).
axis_values is the binary-side range from get_axes_values, srcRange the
project-side range from get_source_axes_values; insts lists each
instance's (current location, desired location) on this axis in
project enumeration order. Python evaluates the assigned value first,
then the subscript key: the key is the normalized desired location
under the binary-side range and the value is the normalized current
location under the project-side range. -/
def create_avar_go (axis_values srcRange : AxisRange) :
    List (ℚ × ℚ) → List (ℚ × ℚ) → Except Err (List (ℚ × ℚ))
  | curve, [] => .ok curve
  | curve, (cur, des) :: rest =>
    match defaultNormalizedValue srcRange cur with
    | .error e => .error e
    | .ok nc =>
      match defaultNormalizedValue axis_values des with
      | .error e => .error e
      | .ok nd => create_avar_go axis_values srcRange (dictInsert curve nd nc) rest

/-- The per-axis curve built by create_avar: the three anchor points
written at line 109, then the instance loop. -/
def create_avar_curve (axis_values srcRange : AxisRange) (insts : List (ℚ × ℚ)) :
    Except Err (List (ℚ × ℚ)) :=
  create_avar_go axis_values srcRange [(-1, -1), (0, 0), (1, 1)] insts

lemma create_avar_go_append (a s : AxisRange) (l1 l2 : List (ℚ × ℚ)) :
    ∀ curve out, create_avar_go a s curve (l1 ++ l2) = .ok out →
      ∃ mid, create_avar_go a s curve l1 = .ok mid ∧
        create_avar_go a s mid l2 = .ok out := by
  induction l1 with
  | nil =>
    intro curve out h
    exact ⟨curve, rfl, h⟩
  | cons x tl ih =>
    intro curve out h
    rcases x with ⟨cur, des⟩
    rw [List.cons_append] at h
    rw [create_avar_go] at h ⊢
    cases hc : defaultNormalizedValue s cur with
    | error e =>
      rw [hc] at h
      exact absurd h (by simp)
    | ok nc =>
      rw [hc] at h
      cases hd : defaultNormalizedValue a des with
      | error e =>
        rw [hd] at h
        exact absurd h (by simp)
      | ok nd =>
        rw [hd] at h
        exact ih _ out h

lemma create_avar_go_lookup (a s : AxisRange) (k : ℚ) (insts : List (ℚ × ℚ)) :
    ∀ curve out, create_avar_go a s curve insts = .ok out →
      ((lookupA k curve).isSome → (lookupA k out).isSome) ∧
      (lookupA k curve = some k →
        (∀ p ∈ insts, defaultNormalizedValue a p.2 ≠ .ok k) →
        lookupA k out = some k) := by
  induction insts with
  | nil =>
    intro curve out h
    rw [create_avar_go] at h
    obtain rfl := Except.ok.inj h
    exact ⟨fun hs => hs, fun hl _ => hl⟩
  | cons x tl ih =>
    intro curve out h
    rcases x with ⟨cur, des⟩
    rw [create_avar_go] at h
    cases hc : defaultNormalizedValue s cur with
    | error e =>
      rw [hc] at h
      exact absurd h (by simp)
    | ok nc =>
      rw [hc] at h
      cases hd : defaultNormalizedValue a des with
      | error e =>
        rw [hd] at h
        exact absurd h (by simp)
      | ok nd =>
        rw [hd] at h
        constructor
        · intro hs
          exact (ih _ out h).1 (lookupA_dictInsert_isSome curve k nd nc hs)
        · intro hl hfa
          have hne : nd ≠ k := by
            intro he
            exact hfa (cur, des) (List.mem_cons_self _ _) (he ▸ hd)
          refine (ih _ out h).2 ?_ ?_
          · rw [lookupA_dictInsert_ne curve k nd nc hne]
            exact hl
          · intro p hp
            exact hfa p (List.mem_cons_of_mem _ hp)

/-- C1 counterexample: with identity ranges (-1, 0, 1) on both sides
and one instance at current location 1/2 and desired location 1/4, the
built curve does not map the normalized current value 1/2 to the
normalized desired value 1/4; the inserted pair is (1/4, 1/2), keyed by
the desired value. -/
theorem c1_counterexample :
    create_avar_curve ⟨-1, 0, 1⟩ ⟨-1, 0, 1⟩ [(1/2, 1/4)] =
      .ok [(-1, -1), (0, 0), (1, 1), (1/4, 1/2)] ∧
    lookupA ((1:ℚ)/2) [((-1:ℚ), (-1:ℚ)), (0, 0), (1, 1), (1/4, 1/2)] ≠
      some (1/4) := by
  constructor
  · norm_num [create_avar_curve, create_avar_go, defaultNormalizedValue, dictInsert, lookupA]
  · norm_num [lookupA]
    exact fun h => Option.noConfusion h

/-- C1 amended: the pair create_avar inserts for an instance is keyed
by the normalized desired location (binary-side range) and carries the
normalized current location (project-side range) as its value: after
the build, the key contributed by the last instance maps to that
instance's normalized current location. -/
theorem c1_inserted_pair (a s : AxisRange) (l : List (ℚ × ℚ)) (cur des nc nd : ℚ)
    (curve : List (ℚ × ℚ))
    (hc : defaultNormalizedValue s cur = .ok nc)
    (hd : defaultNormalizedValue a des = .ok nd)
    (hrun : create_avar_curve a s (l ++ [(cur, des)]) = .ok curve) :
    lookupA nd curve = some nc := by
  obtain ⟨mid, _, h2⟩ := create_avar_go_append a s l [(cur, des)] _ curve hrun
  rw [create_avar_go] at h2
  rw [hc] at h2
  rw [hd] at h2
  have h3 : (Except.ok (dictInsert mid nd nc) : Except Err (List (ℚ × ℚ))) =
      Except.ok curve := h2
  obtain rfl := Except.ok.inj h3
  exact lookupA_dictInsert_self mid nd nc

/-- Witness for c1_inserted_pair: identity ranges, one instance at
current location 1/2 and desired location 1/4. -/
theorem c1_witness :
    lookupA ((1:ℚ)/4) [((-1:ℚ), (-1:ℚ)), (0, 0), (1, 1), (1/4, 1/2)] =
      some (1/2) :=
  c1_inserted_pair ⟨-1, 0, 1⟩ ⟨-1, 0, 1⟩ [] (1/2) (1/4) (1/2) (1/4)
    [(-1, -1), (0, 0), (1, 1), (1/4, 1/2)]
    (by norm_num [defaultNormalizedValue])
    (by norm_num [defaultNormalizedValue])
    (by norm_num [create_avar_curve, create_avar_go, defaultNormalizedValue, dictInsert, lookupA])

/-- C4 counterexample: with identity ranges, an instance whose desired
location normalizes to 0 but whose current location normalizes to 1/2
overwrites the center anchor: the curve maps key 0 to 1/2, not to 0. -/
theorem c4_counterexample :
    create_avar_curve ⟨-1, 0, 1⟩ ⟨-1, 0, 1⟩ [(1/2, 0)] =
      .ok [(-1, -1), (0, 1/2), (1, 1)] ∧
    lookupA (0:ℚ) [((-1:ℚ), (-1:ℚ)), (0, 1/2), (1, 1)] ≠ some 0 := by
  constructor
  · norm_num [create_avar_curve, create_avar_go, defaultNormalizedValue, dictInsert, lookupA]
  · norm_num [lookupA]

/-- C4 amended: after create_avar runs, the curve always contains the
keys -1, 0 and 1; each of these anchor keys maps to itself provided no
instance's normalized desired location coincides with it (an
instance-contributed point at an anchor key overwrites the anchor,
last write wins). -/
theorem c4_anchor_keys (a s : AxisRange) (insts : List (ℚ × ℚ))
    (curve : List (ℚ × ℚ)) (k : ℚ) (hk : k = -1 ∨ k = 0 ∨ k = 1)
    (hrun : create_avar_curve a s insts = .ok curve) :
    (lookupA k curve).isSome ∧
    ((∀ p ∈ insts, defaultNormalizedValue a p.2 ≠ .ok k) →
      lookupA k curve = some k) := by
  have hstart : lookupA k [((-1:ℚ), (-1:ℚ)), (0, 0), (1, 1)] = some k := by
    rcases hk with rfl | rfl | rfl <;> rfl
  have h := create_avar_go_lookup a s k insts _ curve hrun
  exact ⟨h.1 (by rw [hstart]; rfl), fun hfa => h.2 hstart hfa⟩

/-- Witness for c4_anchor_keys: identity ranges, one instance at
current location 1/4 and desired location 1/2, anchor key 0. -/
theorem c4_witness :
    (lookupA (0:ℚ) [((-1:ℚ), (-1:ℚ)), (0, 0), (1, 1), (1/2, 1/4)]).isSome ∧
    ((∀ p ∈ [((1:ℚ)/4, (1:ℚ)/2)],
        defaultNormalizedValue ⟨-1, 0, 1⟩ p.2 ≠ .ok 0) →
      lookupA (0:ℚ) [((-1:ℚ), (-1:ℚ)), (0, 0), (1, 1), (1/2, 1/4)] = some 0) :=
  c4_anchor_keys ⟨-1, 0, 1⟩ ⟨-1, 0, 1⟩ [(1/4, 1/2)]
    [(-1, -1), (0, 0), (1, 1), (1/2, 1/4)] 0 (Or.inr (Or.inl rfl))
    (by norm_num [create_avar_curve, create_avar_go, defaultNormalizedValue, dictInsert, lookupA])

/-- C5 counterexample: with identity ranges and one instance whose
normalized current and desired locations agree at 1/2, the curve has a
fourth point (1/2, 1/2): it does not consist of the three anchors
only. -/
theorem c5_counterexample :
    create_avar_curve ⟨-1, 0, 1⟩ ⟨-1, 0, 1⟩ [(1/2, 1/2)] =
      .ok [(-1, -1), (0, 0), (1, 1), (1/2, 1/2)] ∧
    [((-1:ℚ), (-1:ℚ)), (0, 0), (1, 1), ((1:ℚ)/2, (1:ℚ)/2)] ≠
      [((-1:ℚ), (-1:ℚ)), (0, 0), (1, 1)] := by
  constructor
  · norm_num [create_avar_curve, create_avar_go, defaultNormalizedValue, dictInsert, lookupA]
  · simp

/-- C5 amended: when every instance's normalized current location
equals its normalized desired location, the built curve is a pointwise
identity map (a no-op remap); it may contain identity points beyond
the three anchors. -/
theorem c5_identity_curve (a s : AxisRange) (insts : List (ℚ × ℚ))
    (curve : List (ℚ × ℚ))
    (hiq : ∀ p ∈ insts, defaultNormalizedValue s p.1 = defaultNormalizedValue a p.2)
    (hrun : create_avar_curve a s insts = .ok curve) :
    ∀ p ∈ curve, p.2 = p.1 := by
  have hgo : ∀ insts2, (∀ p ∈ insts2,
        defaultNormalizedValue s p.1 = defaultNormalizedValue a p.2) →
      ∀ curve2 out, (∀ p ∈ curve2, p.2 = p.1) →
        create_avar_go a s curve2 insts2 = .ok out → ∀ p ∈ out, p.2 = p.1 := by
    intro insts2
    induction insts2 with
    | nil =>
      intro _ curve2 out hid h
      rw [create_avar_go] at h
      obtain rfl := Except.ok.inj h
      exact hid
    | cons x tl ih =>
      intro hiq2 curve2 out hid h
      rcases x with ⟨cur, des⟩
      rw [create_avar_go] at h
      cases hc : defaultNormalizedValue s cur with
      | error e =>
        rw [hc] at h
        exact absurd h (by simp)
      | ok nc =>
        rw [hc] at h
        cases hd : defaultNormalizedValue a des with
        | error e =>
          rw [hd] at h
          exact absurd h (by simp)
        | ok nd =>
          rw [hd] at h
          have hnn : nc = nd := by
            have := hiq2 (cur, des) (List.mem_cons_self _ _)
            rw [hc, hd] at this
            exact Except.ok.inj this
          subst hnn
          exact ih (fun p hp => hiq2 p (List.mem_cons_of_mem _ hp)) _ out
            (dictInsert_id curve2 nc hid) h
  exact hgo insts hiq _ curve (by decide) hrun

/-- Witness for c5_identity_curve: identity ranges, one instance with
current and desired location both 1/2; the instance-contributed curve
point (1/2, 1/2) is an identity point. -/
theorem c5_witness :
    ((((1:ℚ)/2, (1:ℚ)/2)) : ℚ × ℚ).2 = ((((1:ℚ)/2, (1:ℚ)/2)) : ℚ × ℚ).1 :=
  c5_identity_curve ⟨-1, 0, 1⟩ ⟨-1, 0, 1⟩ [(1/2, 1/2)]
    [(-1, -1), (0, 0), (1, 1), (1/2, 1/2)]
    (by intro p hp; rw [List.mem_singleton.mp hp])
    (by norm_num [create_avar_curve, create_avar_go, defaultNormalizedValue, dictInsert, lookupA])
    (1/2, 1/2)
    (List.mem_cons_of_mem _ (List.mem_cons_of_mem _
      (List.mem_cons_of_mem _ (List.mem_singleton.mpr rfl))))

/-- C6 counterexample: axis wght with binary and project ranges both
(100, 400, 900) and instance Bold at current and desired location 700:
the normalization of 700 is (700 - 400) / (900 - 400) = 3/5, so the
built curve has the point (3/5, 3/5) and no key 1/2 at all; it does
not contain the point (1/2, 1/2) the claim names. -/
theorem c6_counterexample :
    create_avar_curve ⟨100, 400, 900⟩ ⟨100, 400, 900⟩ [(700, 700)] =
      .ok [(-1, -1), (0, 0), (1, 1), (3/5, 3/5)] ∧
    lookupA ((1:ℚ)/2) [((-1:ℚ), (-1:ℚ)), (0, 0), (1, 1), (3/5, 3/5)] = none := by
  constructor
  · norm_num [create_avar_curve, create_avar_go, defaultNormalizedValue, dictInsert, lookupA]
  · norm_num [lookupA]

/-- C6 amended: in the round-trip scenario (both ranges (100, 400, 900),
instance Bold with current and desired location 700) the curve contains
the point (3/5, 3/5), that is (0.6, 0.6), in addition to the three
anchors. -/
theorem c6_roundtrip_point :
    create_avar_curve ⟨100, 400, 900⟩ ⟨100, 400, 900⟩ [(700, 700)] =
      .ok [(-1, -1), (0, 0), (1, 1), (3/5, 3/5)] ∧
    lookupA ((3:ℚ)/5) [((-1:ℚ), (-1:ℚ)), (0, 0), (1, 1), (3/5, 3/5)] =
      some (3/5) ∧
    lookupA (-1:ℚ) [((-1:ℚ), (-1:ℚ)), (0, 0), (1, 1), (3/5, 3/5)] = some (-1) ∧
    lookupA (0:ℚ) [((-1:ℚ), (-1:ℚ)), (0, 0), (1, 1), (3/5, 3/5)] = some 0 ∧
    lookupA (1:ℚ) [((-1:ℚ), (-1:ℚ)), (0, 0), (1, 1), (3/5, 3/5)] = some 1 := by
  refine ⟨by norm_num [create_avar_curve, create_avar_go, defaultNormalizedValue, dictInsert, lookupA], by norm_num [lookupA], by norm_num [lookupA],
    by norm_num [lookupA], by norm_num [lookupA]⟩

/-- A project master: its id and its positional per-axis coordinate
list (master.axes in the source). -/
structure GSMaster where
  id : String
  axes : List ℚ
deriving DecidableEq

/-- Coordinate of a master at an axis index. Indexing past the end of
the list raises IndexError in Python, which get_source_axes_values
catches and replaces by 0.0 (lines 62-66 and 71-75). -/
def masterAxisValue (m : GSMaster) (i : ℕ) : ℚ := m.axes.getD i 0

/-- The min/max scan of get_source_axes_values (lines 68-79): the code
starts from +inf and -inf and replaces the accumulator on strict
comparison; none plays the role of the two infinities. -/
def scanMinMax (masters : List GSMaster) (i : ℕ) : Option ℚ × Option ℚ :=
  masters.foldl
    (fun acc m =>
      let value := masterAxisValue m i
      ((match acc.1 with
        | none => some value
        | some mn => if value < mn then some value else some mn),
       (match acc.2 with
        | none => some value
        | some mx => if value > mx then some value else some mx)))
    (none, none)

/-- Embedding of get_source_axes_values (lines 52-86) at one axis
index. The default master is the first master whose id equals the
Variable Font Origin custom parameter (lines 54-58); indexing [0] of
an empty filter result raises IndexError in Python, modelled as the
missingOriginMaster error. -/
def get_source_axes_values_at (masters : List GSMaster) (originId : String)
    (i : ℕ) : Except Err AxisRange :=
  match masters.filter (fun m => m.id == originId), scanMinMax masters i with
  | dm :: _, (some mn, some mx) => .ok ⟨mn, masterAxisValue dm i, mx⟩
  | _, _ => .error .missingOriginMaster

lemma scanMinMax_from_const (i : ℕ) (c : ℚ) :
    ∀ masters : List GSMaster, (∀ m ∈ masters, masterAxisValue m i = c) →
      masters.foldl
        (fun acc m =>
          let value := masterAxisValue m i
          ((match acc.1 with
            | none => some value
            | some mn => if value < mn then some value else some mn),
           (match acc.2 with
            | none => some value
            | some mx => if value > mx then some value else some mx)))
        (some c, some c) = (some c, some c) := by
  intro masters
  induction masters with
  | nil => intro _; rfl
  | cons m tl ih =>
    intro hall
    have hm : masterAxisValue m i = c := hall m (List.mem_cons_self _ _)
    rw [List.foldl_cons]
    have hstep :
        ((match some c with
          | none => some (masterAxisValue m i)
          | some mn => if masterAxisValue m i < mn then some (masterAxisValue m i)
              else some mn),
         (match some c with
          | none => some (masterAxisValue m i)
          | some mx => if masterAxisValue m i > mx then some (masterAxisValue m i)
              else some mx)) = ((some c : Option ℚ), (some c : Option ℚ)) := by
      rw [hm]
      simp [lt_irrefl]
    rw [hstep]
    exact ih (fun q hq => hall q (List.mem_cons_of_mem _ hq))

lemma scanMinMax_const (masters : List GSMaster) (i : ℕ) (c : ℚ)
    (hne : masters ≠ []) (hall : ∀ m ∈ masters, masterAxisValue m i = c) :
    scanMinMax masters i = (some c, some c) := by
  cases masters with
  | nil => exact absurd rfl hne
  | cons m tl =>
    have hm : masterAxisValue m i = c := hall m (List.mem_cons_self _ _)
    unfold scanMinMax
    rw [List.foldl_cons]
    have hstep :
        ((match (none : Option ℚ) with
          | none => some (masterAxisValue m i)
          | some mn => if masterAxisValue m i < mn then some (masterAxisValue m i)
              else some mn),
         (match (none : Option ℚ) with
          | none => some (masterAxisValue m i)
          | some mx => if masterAxisValue m i > mx then some (masterAxisValue m i)
              else some mx)) = ((some c : Option ℚ), (some c : Option ℚ)) := by
      rw [hm]
    rw [hstep]
    exact scanMinMax_from_const i c tl (fun q hq => hall q (List.mem_cons_of_mem _ hq))

/-- C8: when every project master has the same coordinate c at an axis
index, the resolved project-side triple is (c, c, c), and normalizing
any value different from c against that triple fails with
degenerateAxisRange: the error is raised instead of any numeric (NaN
or infinite) value being produced. -/
theorem c8_degenerate (masters : List GSMaster) (originId : String) (i : ℕ) (c : ℚ)
    (hmem : ∃ m ∈ masters, m.id = originId)
    (hall : ∀ m ∈ masters, masterAxisValue m i = c) :
    get_source_axes_values_at masters originId i = .ok ⟨c, c, c⟩ ∧
    ∀ v, v ≠ c →
      defaultNormalizedValue ⟨c, c, c⟩ v = .error .degenerateAxisRange := by
  constructor
  · obtain ⟨m0, hm0, hid0⟩ := hmem
    have hne : masters ≠ [] := by
      intro he
      rw [he] at hm0
      exact absurd hm0 (List.not_mem_nil m0)
    have hscan := scanMinMax_const masters i c hne hall
    unfold get_source_axes_values_at
    rw [hscan]
    cases hfil : masters.filter (fun m => m.id == originId) with
    | nil =>
      have : m0 ∈ masters.filter (fun m => m.id == originId) :=
        List.mem_filter.mpr ⟨hm0, by simp [hid0]⟩
      rw [hfil] at this
      exact absurd this (List.not_mem_nil m0)
    | cons dm tl =>
      have hdm : dm ∈ masters := by
        have : dm ∈ masters.filter (fun m => m.id == originId) := by
          rw [hfil]
          exact List.mem_cons_self _ _
        exact (List.mem_filter.mp this).1
      have hgoal : (Except.ok (AxisRange.mk c (masterAxisValue dm i) c) :
          Except Err AxisRange) = Except.ok ⟨c, c, c⟩ := by
        rw [hall dm hdm]
      exact hgoal
  · intro v hv
    rcases lt_or_gt_of_ne hv with h | h
    · unfold defaultNormalizedValue
      rw [if_pos (show v < (AxisRange.mk c c c).dflt from h)]
      rw [if_pos (by simp)]
    · unfold defaultNormalizedValue
      rw [if_neg (show ¬ v < (AxisRange.mk c c c).dflt from not_lt.mpr h.le)]
      rw [if_pos (show v > (AxisRange.mk c c c).dflt from h)]
      rw [if_pos (by simp)]

/-- Witness for c8_degenerate: a single master with coordinate 5,
normalizing the value 6. -/
theorem c8_witness :
    get_source_axes_values_at [⟨"m1", [5]⟩] "m1" 0 = .ok ⟨5, 5, 5⟩ ∧
    defaultNormalizedValue ⟨5, 5, 5⟩ 6 = .error .degenerateAxisRange := by
  have h := c8_degenerate [⟨"m1", [5]⟩] "m1" 0 5
    ⟨⟨"m1", [5]⟩, List.mem_cons_self _ _, rfl⟩
    (by
      intro m hm
      rw [List.mem_singleton.mp hm]
      rfl)
  exact ⟨h.1, h.2 6 (by norm_num)⟩

/-- Zero-padding of a master's coordinate list to length n, modelling
coordinates that are explicitly 0.0 instead of absent. -/
def padAxes (n : ℕ) (m : GSMaster) : GSMaster :=
  ⟨m.id, m.axes ++ List.replicate (n - m.axes.length) 0⟩

lemma getD_replicate_zero (k i : ℕ) : (List.replicate k (0:ℚ)).getD i 0 = 0 := by
  induction k generalizing i with
  | zero => rfl
  | succ k ih =>
    cases i with
    | zero => rfl
    | succ i =>
      rw [List.replicate_succ, List.getD_cons_succ]
      exact ih i

lemma masterAxisValue_pad (n : ℕ) (m : GSMaster) (i : ℕ) :
    masterAxisValue (padAxes n m) i = masterAxisValue m i := by
  show (m.axes ++ List.replicate (n - m.axes.length) 0).getD i 0 = m.axes.getD i 0
  by_cases h : i < m.axes.length
  · rw [List.getD_append _ _ _ _ h]
  · rw [List.getD_append_right _ _ _ _ (not_lt.mp h), getD_replicate_zero,
      List.getD_eq_default _ _ (not_lt.mp h)]

lemma filter_map_pad (masters : List GSMaster) (originId : String) (n : ℕ) :
    (masters.map (padAxes n)).filter (fun m => m.id == originId) =
      (masters.filter (fun m => m.id == originId)).map (padAxes n) := by
  induction masters with
  | nil => rfl
  | cons m tl ih =>
    rw [List.map_cons, List.filter_cons, List.filter_cons]
    have hid : ((padAxes n m).id == originId) = (m.id == originId) := rfl
    rw [hid]
    cases h : (m.id == originId) with
    | false =>
      rw [if_neg (by simp), if_neg (by simp)]
      exact ih
    | true =>
      rw [if_pos rfl, if_pos rfl, List.map_cons, ih]

lemma scanMinMax_map_pad (masters : List GSMaster) (n i : ℕ) :
    scanMinMax (masters.map (padAxes n)) i = scanMinMax masters i := by
  unfold scanMinMax
  rw [List.foldl_map]
  apply List.foldl_ext
  intro acc m _
  simp only [masterAxisValue_pad]

/-- C9: sparse masters behave exactly as if their missing coordinates
were explicitly 0.0: zero-padding every master's coordinate list
leaves the triple resolved by get_source_axes_values unchanged at
every axis index, for every padding length. -/
theorem c9_sparse_padding (masters : List GSMaster) (originId : String) (n i : ℕ) :
    get_source_axes_values_at (masters.map (padAxes n)) originId i =
      get_source_axes_values_at masters originId i := by
  unfold get_source_axes_values_at
  rw [filter_map_pad, scanMinMax_map_pad]
  cases hfil : masters.filter (fun m => m.id == originId) with
  | nil => rfl
  | cons dm tl =>
    rcases hscan : scanMinMax masters i with ⟨omn, omx⟩
    cases omn with
    | none => rfl
    | some mn =>
      cases omx with
      | none => rfl
      | some mx =>
        rw [List.map_cons]
        simp only [masterAxisValue_pad]

/-- A compiled-binary named instance: its resolved subfamily name (the
name-table string for subfamilyNameID under platform 3, encoding 1),
the subfamilyNameID itself, and its coordinates dict mapping axis tag
to design-space value. -/
structure FvarInstance where
  subfamilyName : String
  subfamilyNameID : ℕ
  coordinates : List (String × ℚ)
deriving DecidableEq

/-- Inner loop of update_fvar for one instance (lines 158-161): walk
the coordinate keys in order, overwriting each with
desired_locations[instance_name][axis_tag]. Both subscripts are
evaluated inside the loop body at line 159, so a name missing from the
project raises KeyError (the InstanceNameMismatch of the
specification) at the first coordinate — an instance with an empty
coordinates dict raises nothing and completes — and a tag missing from
the instance's desired map raises KeyError (missingAxisTag); either
error is observed after the earlier coordinates were already
rewritten. -/
def updateCoordsGo (desired : List (String × List (String × ℚ)))
    (instName : String) :
    List (String × ℚ) → List String → Option Err × List (String × ℚ)
  | coords, [] => (none, coords)
  | coords, t :: ts =>
    match lookupA instName desired with
    | none => (some .instanceNameMismatch, coords)
    | some dm =>
      match lookupA t dm with
      | none => (some .missingAxisTag, coords)
      | some v => updateCoordsGo desired instName (dictInsert coords t v) ts

/-- Embedding of update_fvar (lines 152-161) as a state transformer:
the returned list is the instance list at the moment the run stops, so
the partial mutation a Python exception leaves behind is observable. -/
def update_fvar_run (desired : List (String × List (String × ℚ))) :
    List FvarInstance → Option Err × List FvarInstance
  | [] => (none, [])
  | inst :: rest =>
    match updateCoordsGo desired inst.subfamilyName inst.coordinates
        (inst.coordinates.map Prod.fst) with
    | (some e, coords1) =>
      (some e, { inst with coordinates := coords1 } :: rest)
    | (none, coords1) =>
      let r := update_fvar_run desired rest
      (r.1, { inst with coordinates := coords1 } :: r.2)

/-- One step of the coordinate rewrite on the success path: overwrite
key t with its desired value from dm (a tag missing from dm cannot
occur on the success path and is left unchanged here). -/
def desiredStep (dm : List (String × ℚ)) (c : List (String × ℚ))
    (t : String) : List (String × ℚ) :=
  match lookupA t dm with
  | none => c
  | some v => dictInsert c t v

/-- The coordinates update_fvar leaves behind for one successfully
matched instance whose desired map is dm. -/
def rewriteCoords (dm : List (String × ℚ)) (coords : List (String × ℚ)) :
    List (String × ℚ) :=
  (coords.map Prod.fst).foldl (desiredStep dm) coords

/-- The instance update_fvar leaves behind for a successfully
processed instance. -/
def applyDesired (desired : List (String × List (String × ℚ)))
    (inst : FvarInstance) : FvarInstance :=
  match lookupA inst.subfamilyName desired with
  | none => inst
  | some dm => { inst with coordinates := rewriteCoords dm inst.coordinates }

/-- A STAT axis-value record as built at lines 143-148. -/
structure AxisValue where
  format : ℕ
  axisIndex : ℕ
  flags : ℕ
  valueNameID : ℕ
  value : ℚ
deriving DecidableEq

/-- Inner axis loop of update_stat for one instance (lines 139-149):
desired_locations[instance_name] is evaluated again at every axis, so
an instance name missing from the project raises KeyError at the first
axis; a tag the instance does not declare is skipped by the continue at
line 142. -/
def statInner (desired : List (String × List (String × ℚ))) (inst : FvarInstance) :
    List String → ℕ → List AxisValue → Option Err × List AxisValue
  | [], _, av => (none, av)
  | tag :: rest, axisIndex, av =>
    match lookupA inst.subfamilyName desired with
    | none => (some .instanceNameMismatch, av)
    | some dm =>
      match lookupA tag dm with
      | none => statInner desired inst rest (axisIndex + 1) av
      | some v =>
        statInner desired inst rest (axisIndex + 1)
          (av ++ [⟨1, axisIndex, 0, inst.subfamilyNameID, v⟩])

/-- Instance loop of update_stat (lines 137-149). -/
def update_stat_go (desired : List (String × List (String × ℚ)))
    (axes_tags : List String) :
    List FvarInstance → List AxisValue → Option Err × List AxisValue
  | [], av => (none, av)
  | inst :: rest, av =>
    match statInner desired inst axes_tags 0 av with
    | (some e, av1) => (some e, av1)
    | (none, av1) => update_stat_go desired axes_tags rest av1

/-- Embedding of update_stat (lines 131-149): the axis-value array is
cleared at line 136 before the instance loop runs, so the old array
oldAV is discarded unconditionally; the returned array is the state at
the moment the run stops. -/
def update_stat_run (desired : List (String × List (String × ℚ)))
    (axes_tags : List String) (instances : List FvarInstance)
    (oldAV : List AxisValue) : Option Err × List AxisValue :=
  update_stat_go desired axes_tags instances []

lemma updateCoordsGo_spec (desired : List (String × List (String × ℚ)))
    (instName : String) (dm : List (String × ℚ))
    (hname : lookupA instName desired = some dm) :
    ∀ tags coords, (∀ t ∈ tags, (lookupA t dm).isSome) →
      ∃ out, updateCoordsGo desired instName coords tags = (none, out) ∧
        ∀ t2, lookupA t2 out =
          if t2 ∈ tags then lookupA t2 dm else lookupA t2 coords := by
  intro tags
  induction tags with
  | nil =>
    intro coords _
    refine ⟨coords, rfl, ?_⟩
    intro t2
    rw [if_neg (List.not_mem_nil t2)]
  | cons t ts ih =>
    intro coords h
    have ht : (lookupA t dm).isSome := h t (List.mem_cons_self _ _)
    obtain ⟨v, hv⟩ := Option.isSome_iff_exists.mp ht
    obtain ⟨out, hrun, hspec⟩ :=
      ih (dictInsert coords t v) (fun u hu => h u (List.mem_cons_of_mem _ hu))
    refine ⟨out, ?_, ?_⟩
    · have hstep : updateCoordsGo desired instName coords (t :: ts) =
          match lookupA t dm with
          | none => (some .missingAxisTag, coords)
          | some v2 =>
            updateCoordsGo desired instName (dictInsert coords t v2) ts := by
        rw [updateCoordsGo, hname]
      rw [hstep, hv]
      exact hrun
    · intro t2
      rw [hspec t2]
      by_cases hts : t2 ∈ ts
      · rw [if_pos hts, if_pos (List.mem_cons_of_mem _ hts)]
      · by_cases htt : t2 = t
        · subst htt
          rw [if_neg hts, if_pos (List.mem_cons_self _ _),
            lookupA_dictInsert_self, hv]
        · rw [if_neg hts,
            if_neg (by rw [List.mem_cons]; push_neg; exact ⟨htt, hts⟩),
            lookupA_dictInsert_ne coords t2 t v (fun he => htt he.symm)]

lemma updateCoordsGo_eq_foldl (desired : List (String × List (String × ℚ)))
    (instName : String) (dm : List (String × ℚ))
    (hname : lookupA instName desired = some dm) :
    ∀ tags coords, (∀ t ∈ tags, (lookupA t dm).isSome) →
      updateCoordsGo desired instName coords tags =
        (none, tags.foldl (desiredStep dm) coords) := by
  intro tags
  induction tags with
  | nil =>
    intro coords _
    rfl
  | cons t ts ih =>
    intro coords h
    obtain ⟨v, hv⟩ :=
      Option.isSome_iff_exists.mp (h t (List.mem_cons_self _ _))
    have hstep : updateCoordsGo desired instName coords (t :: ts) =
        match lookupA t dm with
        | none => (some .missingAxisTag, coords)
        | some v2 =>
          updateCoordsGo desired instName (dictInsert coords t v2) ts := by
      rw [updateCoordsGo, hname]
    have hds : desiredStep dm coords t = dictInsert coords t v := by
      unfold desiredStep
      rw [hv]
    rw [hstep, hv, List.foldl_cons, hds]
    exact ih (dictInsert coords t v) (fun u hu => h u (List.mem_cons_of_mem _ hu))

/-- The STAT axis values update_stat appends for one successfully
matched instance, walking the design-axis tags from a given axis
index: exactly the records built at lines 143-149. -/
def statValues (desired : List (String × List (String × ℚ)))
    (inst : FvarInstance) : List String → ℕ → List AxisValue
  | [], _ => []
  | tag :: rest, axisIndex =>
    match lookupA inst.subfamilyName desired with
    | none => []
    | some dm =>
      match lookupA tag dm with
      | none => statValues desired inst rest (axisIndex + 1)
      | some v =>
        ⟨1, axisIndex, 0, inst.subfamilyNameID, v⟩ ::
          statValues desired inst rest (axisIndex + 1)

/-- Concatenation of statValues over a list of instances: the exact
array update_stat has built after processing those instances. -/
def statValuesAll (desired : List (String × List (String × ℚ)))
    (axes_tags : List String) : List FvarInstance → List AxisValue
  | [] => []
  | inst :: rest =>
    statValues desired inst axes_tags 0 ++ statValuesAll desired axes_tags rest

lemma statInner_values (desired : List (String × List (String × ℚ)))
    (inst : FvarInstance) (dm : List (String × ℚ))
    (hname : lookupA inst.subfamilyName desired = some dm) :
    ∀ tags idx av, statInner desired inst tags idx av =
      (none, av ++ statValues desired inst tags idx) := by
  intro tags
  induction tags with
  | nil =>
    intro idx av
    have h0 : statValues desired inst [] idx = [] := rfl
    rw [h0, List.append_nil]
    rfl
  | cons t ts ih =>
    intro idx av
    have hstepI : statInner desired inst (t :: ts) idx av =
        match lookupA t dm with
        | none => statInner desired inst ts (idx + 1) av
        | some v => statInner desired inst ts (idx + 1)
            (av ++ [⟨1, idx, 0, inst.subfamilyNameID, v⟩]) := by
      rw [statInner, hname]
    have hstepV : statValues desired inst (t :: ts) idx =
        match lookupA t dm with
        | none => statValues desired inst ts (idx + 1)
        | some v =>
          ⟨1, idx, 0, inst.subfamilyNameID, v⟩ ::
            statValues desired inst ts (idx + 1) := by
      rw [statValues, hname]
    cases hl : lookupA t dm with
    | none =>
      rw [hstepI, hstepV, hl]
      exact ih (idx + 1) av
    | some v =>
      rw [hstepI, hstepV, hl]
      show statInner desired inst ts (idx + 1)
          (av ++ [⟨1, idx, 0, inst.subfamilyNameID, v⟩]) =
        (none, av ++ (⟨1, idx, 0, inst.subfamilyNameID, v⟩ ::
          statValues desired inst ts (idx + 1)))
      have h2 := ih (idx + 1)
        (av ++ [(⟨1, idx, 0, inst.subfamilyNameID, v⟩ : AxisValue)])
      rw [h2, List.append_assoc]
      rfl

lemma statInner_mismatch (desired : List (String × List (String × ℚ)))
    (inst : FvarInstance) (t : String) (ts : List String) (idx : ℕ)
    (av : List AxisValue)
    (hname : lookupA inst.subfamilyName desired = none) :
    statInner desired inst (t :: ts) idx av = (some .instanceNameMismatch, av) := by
  rw [statInner, hname]

lemma update_stat_go_state (desired : List (String × List (String × ℚ)))
    (axes_tags : List String) (ghost : FvarInstance) (rest : List FvarInstance)
    (haxes : axes_tags ≠ [])
    (hghost : lookupA ghost.subfamilyName desired = none) :
    ∀ pre av,
      (∀ p ∈ pre, ∃ dm, lookupA p.subfamilyName desired = some dm) →
      update_stat_go desired axes_tags (pre ++ ghost :: rest) av =
        (some .instanceNameMismatch,
          av ++ statValuesAll desired axes_tags pre) := by
  intro pre
  induction pre with
  | nil =>
    intro av _
    rw [List.nil_append, update_stat_go]
    cases axes_tags with
    | nil => exact absurd rfl haxes
    | cons t ts =>
      rw [statInner_mismatch desired ghost t ts 0 av hghost,
        show statValuesAll desired (t :: ts) [] = [] from rfl,
        List.append_nil]
  | cons p pl ih =>
    intro av hpre
    obtain ⟨dm, hdm⟩ := hpre p (List.mem_cons_self _ _)
    have hred : update_stat_go desired axes_tags ((p :: pl) ++ ghost :: rest) av =
        update_stat_go desired axes_tags (pl ++ ghost :: rest)
          (av ++ statValues desired p axes_tags 0) := by
      rw [List.cons_append, update_stat_go,
        statInner_values desired p dm hdm axes_tags 0 av]
    rw [hred, ih (av ++ statValues desired p axes_tags 0)
        (fun q hq => hpre q (List.mem_cons_of_mem _ hq)),
      List.append_assoc]
    rfl

lemma update_fvar_run_state (desired : List (String × List (String × ℚ)))
    (ghost : FvarInstance) (rest : List FvarInstance)
    (hghost : lookupA ghost.subfamilyName desired = none)
    (hcoords : ghost.coordinates ≠ []) :
    ∀ pre,
      (∀ p ∈ pre, ∃ dm, lookupA p.subfamilyName desired = some dm ∧
        ∀ q ∈ p.coordinates, (lookupA q.1 dm).isSome) →
      update_fvar_run desired (pre ++ ghost :: rest) =
        (some .instanceNameMismatch,
          pre.map (applyDesired desired) ++ ghost :: rest) := by
  intro pre
  induction pre with
  | nil =>
    intro _
    obtain ⟨q0, qs, hq⟩ : ∃ q0 qs, ghost.coordinates = q0 :: qs := by
      cases hcg : ghost.coordinates with
      | nil => exact absurd hcg hcoords
      | cons q0 qs => exact ⟨q0, qs, rfl⟩
    have hrun : updateCoordsGo desired ghost.subfamilyName ghost.coordinates
        (ghost.coordinates.map Prod.fst) =
        (some .instanceNameMismatch, ghost.coordinates) := by
      rw [hq, List.map_cons, updateCoordsGo, hghost]
    rw [List.nil_append, List.map_nil, List.nil_append,
      update_fvar_run, hrun]
  | cons p pl ih =>
    intro hpre
    obtain ⟨dm, hdm, hco⟩ := hpre p (List.mem_cons_self _ _)
    have hts : ∀ t ∈ p.coordinates.map Prod.fst, (lookupA t dm).isSome := by
      intro t ht
      obtain ⟨q, hq, rfl⟩ := List.mem_map.mp ht
      exact hco q hq
    have hrun := updateCoordsGo_eq_foldl desired p.subfamilyName dm hdm
      (p.coordinates.map Prod.fst) p.coordinates hts
    have happ : applyDesired desired p =
        { p with coordinates := rewriteCoords dm p.coordinates } := by
      unfold applyDesired
      rw [hdm]
    rw [List.cons_append, update_fvar_run, hrun,
      ih (fun q hq => hpre q (List.mem_cons_of_mem _ hq)),
      List.map_cons, happ]
    rfl

/-- C2 counterexample: one old STAT axis value, one binary instance
(Ghost) with no project entry. update_stat raises the name-mismatch
error, but the axis-value array was cleared before the instance loop:
the returned array is empty, not the original one, so the tables are
not left unchanged. -/
theorem c2_counterexample :
    update_stat_run [] ["wght"] [⟨"Ghost", 17, [("wght", 700)]⟩]
      [⟨1, 0, 0, 5, 400⟩] = (some .instanceNameMismatch, []) ∧
    ([] : List AxisValue) ≠ [⟨1, 0, 0, 5, 400⟩] := by
  constructor
  · rfl
  · simp

/-- C2 amended: a binary instance with no matching project entry makes
update_stat and update_fvar fail with the instanceNameMismatch error
once the failing lookup is reached — in update_stat at the mismatched
instance's first design axis (so only when the design-axis list is
non-empty), in update_fvar at its first coordinate (so only when its
coordinates dict is non-empty; with no coordinates the instance is
silently skipped) — and the tables are left partially mutated, not
unchanged: update_stat has cleared the STAT axis-value array and
rebuilt exactly the axis values of the instances preceding the
mismatch, and update_fvar has rewritten the coordinates of the
preceding instances to their desired values while the mismatched
instance and the ones after it keep their old coordinates. -/
theorem c2_mismatch_raises (desired : List (String × List (String × ℚ)))
    (axes_tags : List String) (pre rest : List FvarInstance)
    (ghost : FvarInstance) (oldAV : List AxisValue)
    (hpre : ∀ p ∈ pre, ∃ dm, lookupA p.subfamilyName desired = some dm ∧
      ∀ q ∈ p.coordinates, (lookupA q.1 dm).isSome)
    (hghost : lookupA ghost.subfamilyName desired = none)
    (haxes : axes_tags ≠ []) (hcoords : ghost.coordinates ≠ []) :
    update_stat_run desired axes_tags (pre ++ ghost :: rest) oldAV =
      (some .instanceNameMismatch, statValuesAll desired axes_tags pre) ∧
    update_fvar_run desired (pre ++ ghost :: rest) =
      (some .instanceNameMismatch,
        pre.map (applyDesired desired) ++ ghost :: rest) := by
  constructor
  · have h := update_stat_go_state desired axes_tags ghost rest haxes hghost
      pre [] (fun q hq => (hpre q hq).imp (fun dm hd => hd.1))
    rw [List.nil_append] at h
    exact h
  · exact update_fvar_run_state desired ghost rest hghost hcoords pre hpre

/-- Witness for c2_mismatch_raises: instance Bold is matched, instance
Ghost is not. The old STAT array is replaced by the single Bold value,
Bold's wght coordinate is rewritten from 650 to the desired 700, and
Ghost keeps its coordinates. -/
theorem c2_witness :
    update_stat_run [("Bold", [("wght", 700)])] ["wght"]
      [⟨"Bold", 2, [("wght", 650)]⟩, ⟨"Ghost", 17, [("wght", 400)]⟩]
      [⟨1, 0, 0, 9, 300⟩] =
      (some .instanceNameMismatch, [⟨1, 0, 0, 2, 700⟩]) ∧
    update_fvar_run [("Bold", [("wght", 700)])]
      [⟨"Bold", 2, [("wght", 650)]⟩, ⟨"Ghost", 17, [("wght", 400)]⟩] =
      (some .instanceNameMismatch,
        [⟨"Bold", 2, [("wght", 700)]⟩, ⟨"Ghost", 17, [("wght", 400)]⟩]) :=
  c2_mismatch_raises [("Bold", [("wght", 700)])] ["wght"]
    [⟨"Bold", 2, [("wght", 650)]⟩] [] ⟨"Ghost", 17, [("wght", 400)]⟩
    [⟨1, 0, 0, 9, 300⟩]
    (by
      intro p hp
      rw [List.mem_singleton.mp hp]
      exact ⟨[("wght", 700)], rfl, by
        intro q hq
        rw [List.mem_singleton.mp hq]
        rfl⟩)
    (by rfl) (by simp) (by simp)

/-- C10: when every binary instance's subfamily name resolves in the
project's desired locations and the resolved desired map contains
every axis tag of the instance's coordinates, update_fvar succeeds
and overwrites each per-axis coordinate of each instance with the
project's desired (declared) design-space value. -/
theorem c10_update_fvar (desired : List (String × List (String × ℚ)))
    (instances : List FvarInstance)
    (h : ∀ inst ∈ instances, ∃ dm, lookupA inst.subfamilyName desired = some dm ∧
      ∀ q ∈ inst.coordinates, (lookupA q.1 dm).isSome) :
    ∃ out, update_fvar_run desired instances = (none, out) ∧
      out.length = instances.length ∧
      ∀ i (hi : i < instances.length) (ho : i < out.length) tag,
        tag ∈ (instances.get ⟨i, hi⟩).coordinates.map Prod.fst →
        lookupA tag (out.get ⟨i, ho⟩).coordinates =
          (lookupA (instances.get ⟨i, hi⟩).subfamilyName desired).bind
            (fun dm2 => lookupA tag dm2) := by
  induction instances with
  | nil =>
    exact ⟨[], rfl, rfl, fun i hi => absurd hi (Nat.not_lt_zero i)⟩
  | cons inst rest ih =>
    obtain ⟨dm, hdm, hco⟩ := h inst (List.mem_cons_self _ _)
    have hts : ∀ t ∈ inst.coordinates.map Prod.fst, (lookupA t dm).isSome := by
      intro t ht
      obtain ⟨q, hq, rfl⟩ := List.mem_map.mp ht
      exact hco q hq
    obtain ⟨coords1, hrun, hspec⟩ :=
      updateCoordsGo_spec desired inst.subfamilyName dm hdm
        (inst.coordinates.map Prod.fst) inst.coordinates hts
    obtain ⟨out, hout, hlen, hget⟩ := ih (fun q hq => h q (List.mem_cons_of_mem _ hq))
    refine ⟨{ inst with coordinates := coords1 } :: out, ?_, ?_, ?_⟩
    · rw [update_fvar_run, hrun, hout]
    · rw [List.length_cons, List.length_cons, hlen]
    · intro i hi ho tag htag
      cases i with
      | zero =>
        have htag2 : tag ∈ inst.coordinates.map Prod.fst := htag
        show lookupA tag coords1 =
          (lookupA inst.subfamilyName desired).bind (fun dm2 => lookupA tag dm2)
        rw [hspec tag, if_pos htag2, hdm]
        rfl
      | succ j =>
        exact hget j (Nat.lt_of_succ_lt_succ hi) (Nat.lt_of_succ_lt_succ ho)
          tag htag

/-- Witness for c10_update_fvar: one matched instance Bold, coordinate
wght rewritten from 650 to the desired 700. -/
theorem c10_witness :
    ∃ out, update_fvar_run [("Bold", [("wght", 700)])]
        [⟨"Bold", 2, [("wght", 650)]⟩] = (none, out) ∧
      out.length = [(⟨"Bold", 2, [("wght", 650)]⟩ : FvarInstance)].length ∧
      ∀ i (hi : i < [(⟨"Bold", 2, [("wght", 650)]⟩ : FvarInstance)].length)
        (ho : i < out.length) tag,
        tag ∈ ([(⟨"Bold", 2, [("wght", 650)]⟩ :
          FvarInstance)].get ⟨i, hi⟩).coordinates.map Prod.fst →
        lookupA tag (out.get ⟨i, ho⟩).coordinates =
          (lookupA ([(⟨"Bold", 2, [("wght", 650)]⟩ :
            FvarInstance)].get ⟨i, hi⟩).subfamilyName
            [("Bold", [("wght", 700)])]).bind (fun dm2 => lookupA tag dm2) :=
  c10_update_fvar [("Bold", [("wght", 700)])] [⟨"Bold", 2, [("wght", 650)]⟩]
    (by
      intro inst hi
      rw [List.mem_singleton.mp hi]
      refine ⟨[("wght", 700)], rfl, ?_⟩
      intro q hq
      rw [List.mem_singleton.mp hq]
      rfl)

end VDL
